import Mathlib

/-!
Shallow embedding of `src/scenedetect/scene_manager.py`: the event ledger,
the scene assembly engine (`get_scene_list`), the cut list (`get_cut_list`),
event transformation (`transform_events_to_cuts`), the argument validation of
`detect_scenes`, the processing-required decision and the downscale heuristic.

A `FrameTimecode` is modelled by its frame number (`Nat`): the assembly engine
only compares, sorts, adds and subtracts timecodes by frame number.  The
Python dict `self._events` is modelled as an insertion-ordered association
list with unique keys.  Raised errors are modelled by `none` / explicit error
values.
-/

/-- `EventType` from `scenedetect.scene_detector`: the kinds of detection
events. -/
inductive EventType where
  | IN
  | OUT
  | CUT
deriving DecidableEq, Repr

/-- `DetectionEvent` from `scenedetect.scene_detector`: a kind, a timecode
(frame number) and an opaque detector-specific context (modelled by `Nat`,
never inspected by the assembly engine). -/
structure DetectionEvent where
  kind : EventType
  time : Nat
  context : Nat
deriving DecidableEq, Repr

/-- The state of a `SceneManager` that the assembly engine reads: `_events`
as an insertion-ordered association list (a Python dict), `_start_pos`,
`_last_pos`, and the `_only_cuts` flag. -/
structure SceneManager where
  events : List (Nat × List DetectionEvent)
  startPos : Option Nat
  lastPos : Option Nat
  onlyCuts : Bool
deriving DecidableEq, Repr

/-- Dict indexing `self._events[t]`: the value at the first entry whose key is
`t`, if any. -/
def eventsLookup (t : Nat) : List (Nat × List DetectionEvent) → Option (List DetectionEvent)
  | [] => none
  | p :: rest => if p.1 = t then some p.2 else eventsLookup t rest

/-- `SceneManager.__init__`: empty ledger, no recorded positions, only-cuts
flag true. -/
def initSceneManager : SceneManager :=
  { events := [], startPos := none, lastPos := none, onlyCuts := true }

/-- One step of `SceneManager.add_events`: append the event to the sequence at
its timecode (creating the key if absent, at the end, preserving insertion
order) and clear `_only_cuts` if the event is not a CUT. -/
def addEvent (m : SceneManager) (e : DetectionEvent) : SceneManager :=
  { m with
    events :=
      if e.time ∈ m.events.map Prod.fst then
        m.events.map (fun p => if p.1 = e.time then (p.1, p.2 ++ [e]) else p)
      else
        m.events ++ [(e.time, [e])],
    onlyCuts := if e.kind = EventType.CUT then m.onlyCuts else false }

/-- `SceneManager.add_events`: fold `addEvent` over the events in arrival
order. -/
def addEvents (m : SceneManager) (l : List DetectionEvent) : SceneManager :=
  l.foldl addEvent m

/-- The loop state of `SceneManager.get_scene_list`: `last_event_pos`,
`in_scene` and the accumulated `scene_list`. -/
structure AssemblyState where
  lastEventPos : Nat
  inScene : Bool
  sceneList : List (Nat × Nat)
deriving DecidableEq, Repr

/-- The body of the inner loop of `get_scene_list`, handling one
`DetectionEvent` at timecode `t`.  The `Bool` component is the per-timecode
`added_new_scene` guard. -/
def processEvent (t : Nat) (acc : AssemblyState × Bool) (e : DetectionEvent) : AssemblyState × Bool :=
  match e.kind with
  | EventType.IN =>
      ({ acc.1 with inScene := true, lastEventPos := t }, acc.2)
  | EventType.OUT =>
      if acc.1.inScene then
        ({ lastEventPos := t, inScene := false,
           sceneList :=
             if acc.2 then acc.1.sceneList else acc.1.sceneList ++ [(acc.1.lastEventPos, t)] },
         true)
      else acc
  | EventType.CUT =>
      if acc.1.inScene then
        ({ lastEventPos := t, inScene := acc.1.inScene,
           sceneList :=
             if acc.2 then acc.1.sceneList else acc.1.sceneList ++ [(acc.1.lastEventPos, t)] },
         true)
      else acc

/-- The per-timecode processing of `get_scene_list`: iterate the events at one
timecode in arrival order, starting with a fresh `added_new_scene` guard. -/
def processTimecode (st : AssemblyState) (t : Nat) (evts : List DetectionEvent) : AssemblyState :=
  (evts.foldl (processEvent t) (st, false)).1

/-- `sorted(self._events.keys())`. -/
def sortedKeys (events : List (Nat × List DetectionEvent)) : List Nat :=
  List.insertionSort (· ≤ ·) (events.map Prod.fst)

/-- One iteration of the outer loop of `get_scene_list`: process all events
recorded at timecode `t`. -/
def sceneStep (events : List (Nat × List DetectionEvent)) (st : AssemblyState) (t : Nat) : AssemblyState :=
  processTimecode st t ((eventsLookup t events).getD [])

/-- The whole event loop of `get_scene_list`, started from
`last_event_pos = start_pos` and `in_scene = only_cuts`. -/
def sceneAssembly (m : SceneManager) (sp : Nat) : AssemblyState :=
  (sortedKeys m.events).foldl (sceneStep m.events)
    { lastEventPos := sp, inScene := m.onlyCuts, sceneList := [] }

/-- `SceneManager.get_scene_list`.  `none` models a raised error: the
`assert self._start_pos is not None` failing, or evaluating
`self._last_pos + 1` while `_last_pos` is `None`. -/
def get_scene_list (m : SceneManager) (alwaysIncludeEnd : Bool) : Option (List (Nat × Nat)) :=
  if m.events = [] then some [] else
    match m.startPos with
    | none => none
    | some sp =>
      let st := sceneAssembly m sp
      if st.inScene && alwaysIncludeEnd then
        match m.lastPos with
        | none => none
        | some lp => some (st.sceneList ++ [(st.lastEventPos, lp + 1)])
      else some st.sceneList

/-- The unfiltered cut collection of `get_cut_list`: all timecodes holding at
least one CUT event, in ascending order. -/
def cutTimes (m : SceneManager) : List Nat :=
  (sortedKeys m.events).filter
    (fun t => ((eventsLookup t m.events).getD []).any (fun e => e.kind == EventType.CUT))

/-- `SceneManager.get_cut_list`: the spacing filter translated from the Python
loop growing `filtered_cuts` from `cuts[0:1]`. -/
def get_cut_list (m : SceneManager) (minimumSpacing : Nat) : List Nat :=
  let cuts := cutTimes m
  if 1 < minimumSpacing ∧ 1 < cuts.length then
    (cuts.drop 1).foldl
      (fun filtered c =>
        if minimumSpacing ≤ c - filtered.getLastD 0 then filtered ++ [c] else filtered)
      (cuts.take 1)
  else cuts

/-- The spec wording of the greedy pass: keep a candidate iff its frame
distance from the most recently kept cut is at least the minimum spacing. -/
def greedyAux (ms kept : Nat) : List Nat → List Nat
  | [] => []
  | c :: cs => if ms ≤ c - kept then c :: greedyAux ms c cs else greedyAux ms kept cs

/-- The spec wording of the whole spacing filter: always keep the first cut,
then the greedy pass. -/
def greedyFilter (ms : Nat) : List Nat → List Nat
  | [] => []
  | c :: cs => c :: greedyAux ms c cs

/-- `SceneManager.transform_events_to_cuts`.  Returns the raised error
message, if any, together with the manager state afterwards.  The
`NotImplementedError` for a non-None fade bias is raised before any mutation,
so the state comes back unchanged in that case. -/
def transform_events_to_cuts (m : SceneManager) (fadeBias : Option Float) :
    Option String × SceneManager :=
  match fadeBias with
  | none =>
      (none,
       { m with
         events := m.events.map
           (fun p =>
             (p.1, p.2.map (fun e =>
               { kind := EventType.CUT, time := e.time, context := e.context }))) })
  | some _ => (some "TODO(v1.0): Handle fade_bias.", m)

/-- `SceneManager._is_processing_required`, with each registered detector
abstracted by its `is_processing_required` answer as a function of the frame
number, and the attached stats manager by a flag. -/
def is_processing_required (statsManagerAttached : Bool) (detectors : List (Nat → Bool))
    (frameNum : Nat) : Bool :=
  if statsManagerAttached = false then true
  else (detectors.map (fun d => d frameNum)).all (fun b => b)

/-- Modelled from the spec wording of the processing-required decision, for
comparison: required iff no metric cache is attached or at least one
registered detector reports its needed metrics missing. -/
def specProcessingRequired (statsManagerAttached : Bool) (detectors : List (Nat → Bool))
    (frameNum : Nat) : Bool :=
  if statsManagerAttached = false then true
  else (detectors.map (fun d => d frameNum)).any (fun b => b)

/-- `DEFAULT_MIN_WIDTH`: minimum effective width a frame is downscaled to. -/
def DEFAULT_MIN_WIDTH : Nat := 256

/-- `compute_downscale_factor` (meaningful for `frame_width ≥ 1`, as the
source asserts). -/
def compute_downscale_factor (frameWidth effectiveWidth : Nat) : Nat :=
  if frameWidth < effectiveWidth then 1 else frameWidth / effectiveWidth

/-- The argument validation at the top of `SceneManager.detect_scenes`, in
source order; it precedes every access to the frame source.  `duration` and
`end_time` are optional frame counts, the attached stats manager a flag. -/
def detectScenesValidate (duration endTime : Option Int) (frameSkip : Int)
    (statsManagerAttached : Bool) : Except String Unit :=
  if 0 < frameSkip ∧ statsManagerAttached then
    Except.error "frame_skip must be 0 when using a StatsManager."
  else if duration.isSome ∧ endTime.isSome then
    Except.error "duration and end_time cannot be set at the same time!"
  else if duration.any (fun d => decide (d < 0)) then
    Except.error "duration must be greater than or equal to 0!"
  else if endTime.any (fun e => decide (e < 0)) then
    Except.error "end_time must be greater than or equal to 0!"
  else Except.ok ()

/-- Ledger of claim C1: only CUT events, at frames 10, 30 and 50, fed through
`add_events`; the run recorded start position 0 and last processed position
60. -/
def managerC1 : SceneManager :=
  { addEvents initSceneManager
      [ { kind := EventType.CUT, time := 10, context := 0 },
        { kind := EventType.CUT, time := 30, context := 0 },
        { kind := EventType.CUT, time := 50, context := 0 } ] with
    startPos := some 0, lastPos := some 60 }

/-- Counterexample ledger for claim C2: a cuts-only run whose single CUT
lands exactly on the recorded start position. -/
def managerC2x : SceneManager :=
  { addEvents initSceneManager [ { kind := EventType.CUT, time := 0, context := 0 } ] with
    startPos := some 0, lastPos := some 60 }

/-- Witness ledger for claim C2: one IN at frame 5 and one OUT at frame 20
over a run from 0 to 25. -/
def managerC2w : SceneManager :=
  { addEvents initSceneManager
      [ { kind := EventType.IN, time := 5, context := 0 },
        { kind := EventType.OUT, time := 20, context := 0 } ] with
    startPos := some 0, lastPos := some 25 }

/-- Ledger of claim C7: CUT events at frames 10, 12, 13 and 40. -/
def managerC7 : SceneManager :=
  { addEvents initSceneManager
      [ { kind := EventType.CUT, time := 10, context := 0 },
        { kind := EventType.CUT, time := 12, context := 0 },
        { kind := EventType.CUT, time := 13, context := 0 },
        { kind := EventType.CUT, time := 40, context := 0 } ] with
    startPos := some 0, lastPos := some 60 }

/-- Ledger for claim C4's witness: one IN and one OUT event with distinct
contexts. -/
def managerC4 : SceneManager :=
  { addEvents initSceneManager
      [ { kind := EventType.IN, time := 2, context := 77 },
        { kind := EventType.OUT, time := 5, context := 88 } ] with
    startPos := some 0, lastPos := some 9 }

/-- Ledger of claim C8: two CUT events colliding at frame 40. -/
def managerC8 : SceneManager :=
  { addEvents initSceneManager
      [ { kind := EventType.CUT, time := 40, context := 0 },
        { kind := EventType.CUT, time := 40, context := 1 } ] with
    startPos := some 0, lastPos := some 60 }

/-- Counterexample ledger for claim C8: a single CUT one frame past the last
processed position 60, so the final always-include-end scene also closes at
frame 61. -/
def managerC8x : SceneManager :=
  { addEvents initSceneManager [ { kind := EventType.CUT, time := 61, context := 0 } ] with
    startPos := some 0, lastPos := some 60 }

/-- Ledger for claim C10's witness, first part: events were added but no run
ever recorded a start position. -/
def managerC10a : SceneManager :=
  { addEvents initSceneManager [ { kind := EventType.IN, time := 5, context := 0 } ] with
    startPos := none, lastPos := none }

/-- Ledger for claim C10's witness, second part: a start position was
recorded, the assembly ends in-scene, but no last processed position was ever
recorded. -/
def managerC10b : SceneManager :=
  { addEvents initSceneManager [ { kind := EventType.IN, time := 5, context := 0 } ] with
    startPos := some 0, lastPos := none }

/-- First event for claim C9's witness: an IN at frame 5. -/
def eventC9a : DetectionEvent := { kind := EventType.IN, time := 5, context := 0 }

/-- Second event for claim C9's witness: a CUT at frame 3. -/
def eventC9b : DetectionEvent := { kind := EventType.CUT, time := 3, context := 1 }

/-- Claim C1: a ledger containing only CUT events at frames 10, 30 and 50,
with recorded start position 0 and last processed position 60, yields the
scene list `[(0,10), (10,30), (30,50), (50,61)]` from `get_scene_list` with
`always_include_end = true`: the cuts-only flag makes `in_scene` start true,
each CUT closes the current scene at its timecode and opens the next one
there, and the final scene ends one frame past the last processed
position. -/
theorem C1_cuts_only_scene_list :
    get_scene_list managerC1 true = some [(0, 10), (10, 30), (30, 50), (50, 61)] := by
  decide

/-- Claim C3, counterexample: with a metric cache attached and two registered
detectors of which exactly one reports its metrics missing, the code's
decision (`all`) returns `false`, while the claimed decision ("at least one
detector" / `any`) returns `true`; the claim as stated is false. -/
theorem C3_counterexample :
    is_processing_required true [fun _ => true, fun _ => false] 7 = false ∧
    specProcessingRequired true [fun _ => true, fun _ => false] 7 = true := by
  exact ⟨rfl, rfl⟩

/-- Claim C3, amended: the per-frame processing-required decision returns true
iff no metric cache is attached, or ALL registered detectors report that
their needed metrics are missing for that frame (vacuously true when no
detector is registered). -/
theorem C3_processing_required_all_detectors :
    ∀ (stats : Bool) (detectors : List (Nat → Bool)) (frameNum : Nat),
      is_processing_required stats detectors frameNum = true ↔
        (stats = false ∨ ∀ d ∈ detectors, d frameNum = true) := by
  intro stats detectors frameNum
  cases stats with
  | false => simp [is_processing_required]
  | true => simp [is_processing_required, List.all_eq_true]

/-- Claim C5, counterexample: at frame width 400 with the default minimum
width 256, the computed factor is 1 and the effective width is 400, which is
not between 256 and 1.5 × 256 = 384 (stated as `2 * 400 ≤ 3 * 256` being
false); the claimed upper bound fails. -/
theorem C5_counterexample :
    compute_downscale_factor 400 DEFAULT_MIN_WIDTH = 1 ∧
    ¬ (2 * (400 / compute_downscale_factor 400 DEFAULT_MIN_WIDTH) ≤ 3 * DEFAULT_MIN_WIDTH) := by
  decide

/-- Claim C5, amended: for every frame width ≥ 1 the computed factor equals
the frame width floor-divided by the minimum effective width constant,
clamped to at least 1; and whenever the frame width is at least that
constant, the effective width (frame width over factor) lies in
[W, 2·W) — stated multiplicatively as `factor * W ≤ width < 2 * factor * W` —
rather than in the claimed [W, 1.5·W]. -/
theorem C5_downscale_factor_bounds :
    ∀ frameWidth : Nat, 1 ≤ frameWidth →
      compute_downscale_factor frameWidth DEFAULT_MIN_WIDTH =
        max 1 (frameWidth / DEFAULT_MIN_WIDTH) ∧
      (DEFAULT_MIN_WIDTH ≤ frameWidth →
        compute_downscale_factor frameWidth DEFAULT_MIN_WIDTH * DEFAULT_MIN_WIDTH ≤ frameWidth ∧
        frameWidth < 2 * (compute_downscale_factor frameWidth DEFAULT_MIN_WIDTH * DEFAULT_MIN_WIDTH)) := by
  intro fw _
  unfold compute_downscale_factor DEFAULT_MIN_WIDTH
  by_cases h : fw < 256
  · rw [if_pos h]
    refine ⟨?_, ?_⟩
    · have : fw / 256 = 0 := Nat.div_eq_of_lt h
      simp [this]
    · intro hc
      omega
  · rw [if_neg h]
    push_neg at h
    have hq : 1 ≤ fw / 256 := (Nat.one_le_div_iff (by omega)).mpr h
    refine ⟨(Nat.max_eq_right hq).symm, fun _ => ⟨Nat.div_mul_le_self fw 256, ?_⟩⟩
    have hdm := Nat.div_add_mod fw 256
    have hm : fw % 256 < 256 := Nat.mod_lt fw (by omega)
    omega

/-- Claim C5, witness: the amended theorem applied at frame width 400. -/
theorem C5_downscale_factor_bounds_witness :
    compute_downscale_factor 400 DEFAULT_MIN_WIDTH = max 1 (400 / DEFAULT_MIN_WIDTH) ∧
    (DEFAULT_MIN_WIDTH ≤ 400 →
      compute_downscale_factor 400 DEFAULT_MIN_WIDTH * DEFAULT_MIN_WIDTH ≤ 400 ∧
      400 < 2 * (compute_downscale_factor 400 DEFAULT_MIN_WIDTH * DEFAULT_MIN_WIDTH)) :=
  C5_downscale_factor_bounds 400 (by decide)

/-- Claim C6: `detect_scenes` fails with an invalid-argument condition, before
any frame is read (the modelled validation is the prefix of the method that
precedes every frame-source access), exactly when both `duration` and
`end_time` are given, or `frame_skip > 0` while a metric cache is attached,
or `duration` is negative, or `end_time` is negative; in all other cases the
validation succeeds. -/
theorem C6_detect_scenes_validation :
    ∀ (duration endTime : Option Int) (frameSkip : Int) (stats : Bool),
      detectScenesValidate duration endTime frameSkip stats = Except.ok () ↔
        ¬ ((duration.isSome ∧ endTime.isSome) ∨ (0 < frameSkip ∧ stats = true) ∨
           (∃ d, duration = some d ∧ d < 0) ∨ (∃ e, endTime = some e ∧ e < 0)) := by
  intro duration endTime frameSkip stats
  rcases duration with _ | d <;> rcases endTime with _ | e <;> cases stats <;>
    simp [detectScenesValidate] <;>
    by_cases hf : 0 < frameSkip <;>
    simp [hf] <;> omega

/-- Helper: looking a key up after mapping every entry's value. -/
theorem eventsLookup_map_snd (g : List DetectionEvent → List DetectionEvent) (t : Nat) :
    ∀ l : List (Nat × List DetectionEvent),
      eventsLookup t (l.map (fun p => (p.1, g p.2))) = (eventsLookup t l).map g
  | [] => rfl
  | p :: rest => by
      by_cases h : p.1 = t <;> simp [eventsLookup, h, eventsLookup_map_snd g t rest]

/-- Claim C4: `transform_events_to_cuts` with `fade_bias = None` replaces
every event of the ledger, regardless of kind, with a CUT event carrying the
same timecode and context (keys, per-key sequences of (time, context) pairs,
and the recorded positions are unchanged); with any non-None fade bias it
raises the not-implemented failure and leaves the manager unmodified. -/
theorem C4_transform_events_to_cuts :
    ∀ m : SceneManager,
      ((transform_events_to_cuts m none).1 = none ∧
       (transform_events_to_cuts m none).2.events.map Prod.fst = m.events.map Prod.fst ∧
       (∀ t, ((eventsLookup t (transform_events_to_cuts m none).2.events).getD []).map
               (fun e => (e.time, e.context)) =
             ((eventsLookup t m.events).getD []).map (fun e => (e.time, e.context))) ∧
       (∀ t, ∀ e ∈ (eventsLookup t (transform_events_to_cuts m none).2.events).getD [],
          e.kind = EventType.CUT) ∧
       (transform_events_to_cuts m none).2.startPos = m.startPos ∧
       (transform_events_to_cuts m none).2.lastPos = m.lastPos) ∧
      (∀ b : Float, transform_events_to_cuts m (some b) =
        (some "TODO(v1.0): Handle fade_bias.", m)) := by
  intro m
  refine ⟨⟨rfl, ?_, ?_, ?_, rfl, rfl⟩, fun b => rfl⟩
  · simp [transform_events_to_cuts, List.map_map, Function.comp]
  · intro t
    show ((eventsLookup t (m.events.map (fun p =>
        (p.1, p.2.map (fun e => ⟨EventType.CUT, e.time, e.context⟩))))).getD []).map
          (fun e => (e.time, e.context)) = _
    rw [eventsLookup_map_snd]
    cases h : eventsLookup t m.events with
    | none => simp
    | some v => simp [List.map_map, Function.comp]
  · intro t e he
    revert he
    show e ∈ (eventsLookup t (m.events.map (fun p =>
        (p.1, p.2.map (fun e => ⟨EventType.CUT, e.time, e.context⟩))))).getD [] → _
    rw [eventsLookup_map_snd]
    cases h : eventsLookup t m.events with
    | none => simp
    | some v =>
        intro he
        simp only [Option.map, Option.getD, List.mem_map] at he
        obtain ⟨x, _, rfl⟩ := he
        rfl

/-- Claim C4, witness: the theorem applied to a concrete ledger holding one
IN and one OUT event, with fade biases `None` and `0.0`. -/
theorem C4_transform_events_to_cuts_witness :
    (transform_events_to_cuts managerC4 none).1 = none ∧
    (transform_events_to_cuts managerC4 none).2.events.map Prod.fst =
      managerC4.events.map Prod.fst ∧
    transform_events_to_cuts managerC4 (some 0.0) =
      (some "TODO(v1.0): Handle fade_bias.", managerC4) :=
  ⟨(C4_transform_events_to_cuts managerC4).1.1,
   (C4_transform_events_to_cuts managerC4).1.2.1,
   (C4_transform_events_to_cuts managerC4).2 0.0⟩

/-- Helper: the default last element of a list after appending a single
element. -/
theorem getLastD_append_single (c : Nat) :
    ∀ (xs : List Nat) (d : Nat), (xs ++ [c]).getLastD d = c
  | [], _ => rfl
  | x :: xs, d => by
      rw [List.cons_append, List.getLastD_cons]
      exact getLastD_append_single c xs x

/-- Helper: the Python spacing-filter loop over `filtered_cuts` computes the
spec's greedy pass. -/
theorem foldl_spacing_eq_greedyAux (ms : Nat) :
    ∀ (cs acc : List Nat) (k : Nat), acc.getLastD 0 = k →
      cs.foldl
        (fun filtered c =>
          if ms ≤ c - filtered.getLastD 0 then filtered ++ [c] else filtered) acc
        = acc ++ greedyAux ms k cs
  | [], acc, k, _ => by simp [greedyAux]
  | c :: cs, acc, k, hk => by
      simp only [List.foldl_cons, hk, greedyAux]
      by_cases h : ms ≤ c - k
      · rw [if_pos h, if_pos h,
          foldl_spacing_eq_greedyAux ms cs (acc ++ [c]) c (getLastD_append_single c acc 0)]
        simp
      · rw [if_neg h, if_neg h, foldl_spacing_eq_greedyAux ms cs acc k hk]

/-- Claim C7: `get_cut_list` collects, in ascending order, exactly the
timecodes holding at least one CUT event; for `minimum_spacing ≤ 1` it
returns them unfiltered; for `minimum_spacing > 1` it computes the forward
greedy filter that always keeps the first cut and keeps each later cut iff
its frame distance from the most recently kept cut is at least the spacing;
and on cuts at frames 10, 12, 13 and 40 with spacing 5 it returns
`[10, 40]`. -/
theorem C7_get_cut_list_greedy :
    ∀ (m : SceneManager) (ms : Nat),
      List.Sorted (· ≤ ·) (cutTimes m) ∧
      (∀ t, t ∈ cutTimes m ↔ t ∈ m.events.map Prod.fst ∧
         ((eventsLookup t m.events).getD []).any (fun e => e.kind == EventType.CUT) = true) ∧
      (ms ≤ 1 → get_cut_list m ms = cutTimes m) ∧
      (1 < ms → get_cut_list m ms = greedyFilter ms (cutTimes m)) ∧
      get_cut_list managerC7 5 = [10, 40] := by
  intro m ms
  refine ⟨?_, ?_, ?_, ?_, by decide⟩
  · exact List.Pairwise.sublist (List.filter_sublist _) (List.sorted_insertionSort _ _)
  · intro t
    simp [cutTimes, sortedKeys, List.mem_filter]
  · intro h
    have hn : ¬ (1 < ms ∧ 1 < (cutTimes m).length) := fun hc => by omega
    simp [get_cut_list, hn]
  · intro h
    cases hc : cutTimes m with
    | nil => simp [get_cut_list, hc, greedyFilter]
    | cons c1 rest =>
        cases rest with
        | nil =>
            have hn : ¬ (1 < ms ∧ 1 < ([c1] : List Nat).length) := fun hc => by
              simp at hc
            simp [get_cut_list, hc, hn, greedyFilter, greedyAux]
        | cons c2 rest' =>
            have hp : 1 < ms ∧ 1 < (c1 :: c2 :: rest').length := ⟨h, by simp⟩
            simp only [get_cut_list, hc]
            rw [if_pos hp]
            show (c2 :: rest').foldl _ [c1] = _
            rw [foldl_spacing_eq_greedyAux ms (c2 :: rest') [c1] c1 rfl]
            simp [greedyFilter]

/-- Claim C7, witness: the theorem applied to the concrete ledger at
spacings 1 and 5. -/
theorem C7_get_cut_list_greedy_witness :
    get_cut_list managerC7 1 = cutTimes managerC7 ∧
    get_cut_list managerC7 5 = greedyFilter 5 (cutTimes managerC7) :=
  ⟨(C7_get_cut_list_greedy managerC7 1).2.2.1 (by decide),
   (C7_get_cut_list_greedy managerC7 5).2.2.2.1 (by decide)⟩

/-- Claim C10: `get_scene_list` on a non-empty ledger errors (returns no
list) when no run ever recorded a start position; and when a start position
exists, the assembly ends still in-scene with `always_include_end = true`,
and no last processed position was recorded, the final-scene computation is
undefined and the call errors as well. -/
theorem C10_scene_list_requires_positions :
    ∀ (m : SceneManager) (b : Bool) (sp : Nat),
      (m.events ≠ [] → m.startPos = none → get_scene_list m b = none) ∧
      (m.events ≠ [] → m.startPos = some sp → m.lastPos = none →
        (sceneAssembly m sp).inScene = true → get_scene_list m true = none) := by
  intro m b sp
  constructor
  · intro h1 h2
    simp [get_scene_list, h1, h2]
  · intro h1 h2 h3 h4
    simp [get_scene_list, h1, h2, h3, h4]

/-- Claim C10, witness: a ledger with events but no recorded start position
errors, and a ledger ending in-scene with no recorded last position
errors. -/
theorem C10_scene_list_requires_positions_witness :
    get_scene_list managerC10a true = none ∧ get_scene_list managerC10b true = none :=
  ⟨(C10_scene_list_requires_positions managerC10a true 0).1 (by decide) rfl,
   (C10_scene_list_requires_positions managerC10b true 0).2 (by decide) rfl rfl (by decide)⟩

/-- Claim C2, counterexample: a cuts-only ledger whose single CUT lands on
the recorded start position (frame 0, run 0..60) produces the scene
`(0, 0)`, so `start < end` fails for a reachable ledger state. -/
theorem C2_counterexample :
    get_scene_list managerC2x true = some [(0, 0), (0, 61)] ∧
    (((get_scene_list managerC2x true).getD []).all fun p => decide (p.1 < p.2)) = false := by
  decide

/-- Claim C8, counterexample: with a single CUT at frame 61 and last
processed position 60, the event loop closes a scene at 61 and the
always-include-end scene also closes at 61 = 60 + 1, so two scenes close at
the same distinct timecode. -/
theorem C8_counterexample :
    get_scene_list managerC8x true = some [(0, 61), (61, 61)] ∧
    ¬ (((get_scene_list managerC8x true).getD []).map Prod.snd).Nodup := by
  constructor
  · decide
  · decide

/-- Helper: invariant of the inner event loop at one timecode.  Starting from
entry state `st`, the `added_new_scene` guard is false exactly while the
scene list is still the entry one, and once a scene is appended it closes at
the current timecode, opens at the entry `last_event_pos` or at the timecode
itself, and `last_event_pos` has been moved to the timecode. -/
theorem processEvent_foldl_inv (t : Nat) (st : AssemblyState) :
    ∀ (evts : List DetectionEvent) (p : AssemblyState × Bool),
      ((p.2 = false ∧ p.1.sceneList = st.sceneList ∧
        (p.1.lastEventPos = st.lastEventPos ∨ p.1.lastEventPos = t)) ∨
       (p.2 = true ∧ p.1.lastEventPos = t ∧
        ∃ x, (x = st.lastEventPos ∨ x = t) ∧ p.1.sceneList = st.sceneList ++ [(x, t)])) →
      (((evts.foldl (processEvent t) p).2 = false ∧
        (evts.foldl (processEvent t) p).1.sceneList = st.sceneList ∧
        ((evts.foldl (processEvent t) p).1.lastEventPos = st.lastEventPos ∨
         (evts.foldl (processEvent t) p).1.lastEventPos = t)) ∨
       ((evts.foldl (processEvent t) p).2 = true ∧
        (evts.foldl (processEvent t) p).1.lastEventPos = t ∧
        ∃ x, (x = st.lastEventPos ∨ x = t) ∧
          (evts.foldl (processEvent t) p).1.sceneList = st.sceneList ++ [(x, t)]))
  | [], _, hp => hp
  | e :: evts, p, hp => by
      rw [List.foldl_cons]
      apply processEvent_foldl_inv t st evts
      rcases e with ⟨k, _, _⟩
      cases k with
      | IN =>
          rcases hp with ⟨h2, hsc, hlep⟩ | ⟨h2, hlep, x, hx, hsc⟩
          · exact Or.inl ⟨h2, hsc, Or.inr rfl⟩
          · exact Or.inr ⟨h2, rfl, x, hx, hsc⟩
      | OUT =>
          by_cases hin : p.1.inScene
          · rcases hp with ⟨h2, hsc, hlep⟩ | ⟨h2, hlep, x, hx, hsc⟩
            · refine Or.inr ⟨?_, ?_, p.1.lastEventPos, ?_, ?_⟩ <;>
                simp [processEvent, hin, h2, hsc, hlep]
            · refine Or.inr ⟨?_, ?_, x, hx, ?_⟩ <;>
                simp [processEvent, hin, h2, hsc]
          · simpa [processEvent, hin] using hp
      | CUT =>
          by_cases hin : p.1.inScene
          · rcases hp with ⟨h2, hsc, hlep⟩ | ⟨h2, hlep, x, hx, hsc⟩
            · refine Or.inr ⟨?_, ?_, p.1.lastEventPos, ?_, ?_⟩ <;>
                simp [processEvent, hin, h2, hsc, hlep]
            · refine Or.inr ⟨?_, ?_, x, hx, ?_⟩ <;>
                simp [processEvent, hin, h2, hsc]
          · simpa [processEvent, hin] using hp

/-- Helper: processing the events at one timecode either leaves the scene
list unchanged (moving `last_event_pos` at most to the timecode) or appends
exactly one scene closing at the timecode. -/
theorem processTimecode_cases (st : AssemblyState) (t : Nat) (evts : List DetectionEvent) :
    ((processTimecode st t evts).sceneList = st.sceneList ∧
     ((processTimecode st t evts).lastEventPos = st.lastEventPos ∨
      (processTimecode st t evts).lastEventPos = t)) ∨
    ((processTimecode st t evts).lastEventPos = t ∧
     ∃ x, (x = st.lastEventPos ∨ x = t) ∧
       (processTimecode st t evts).sceneList = st.sceneList ++ [(x, t)]) := by
  have h := processEvent_foldl_inv t st evts (st, false) (Or.inl ⟨rfl, rfl, Or.inl rfl⟩)
  rcases h with ⟨_, hsc, hlep⟩ | ⟨_, hlep, x, hx, hsc⟩
  · exact Or.inl ⟨hsc, hlep⟩
  · exact Or.inr ⟨hlep, x, hx, hsc⟩

/-- Helper: a value produced by `getLast?` is a member of the list. -/
theorem mem_of_mem_getLast_opt {l : List (Nat × Nat)} {p : Nat × Nat}
    (h : p ∈ l.getLast?) : p ∈ l := by
  obtain ⟨hne, rfl⟩ := List.mem_getLast?_eq_getLast h
  exact List.getLast_mem hne

/-- Helper: invariant of the outer loop of `get_scene_list` over an
ascending key list: every accumulated scene has start ≤ end, ends are
bounded by `last_event_pos`, consecutive scenes do not overlap, and
`last_event_pos` stays at its entry value or moves to one of the processed
keys. -/
theorem foldl_sceneStep_bounds (ev : List (Nat × List DetectionEvent)) :
    ∀ (ks : List Nat) (st : AssemblyState),
      List.Sorted (· ≤ ·) ks →
      (∀ t ∈ ks, st.lastEventPos ≤ t) →
      (∀ p ∈ st.sceneList, p.1 ≤ p.2 ∧ p.2 ≤ st.lastEventPos) →
      List.Chain' (fun p q => p.2 ≤ q.1) st.sceneList →
      ((∀ p ∈ (ks.foldl (sceneStep ev) st).sceneList,
          p.1 ≤ p.2 ∧ p.2 ≤ (ks.foldl (sceneStep ev) st).lastEventPos) ∧
       List.Chain' (fun p q => p.2 ≤ q.1) (ks.foldl (sceneStep ev) st).sceneList ∧
       ((ks.foldl (sceneStep ev) st).lastEventPos = st.lastEventPos ∨
        (ks.foldl (sceneStep ev) st).lastEventPos ∈ ks))
  | [], st, _, _, h3, h4 => ⟨h3, h4, Or.inl rfl⟩
  | t :: ks, st, h1, h2, h3, h4 => by
      rw [List.foldl_cons]
      obtain ⟨hts, h1'⟩ := List.sorted_cons.mp h1
      have htle : st.lastEventPos ≤ t := h2 t (List.mem_cons_self t ks)
      have hcases :
          ((sceneStep ev st t).sceneList = st.sceneList ∧
           ((sceneStep ev st t).lastEventPos = st.lastEventPos ∨
            (sceneStep ev st t).lastEventPos = t)) ∨
          ((sceneStep ev st t).lastEventPos = t ∧
           ∃ x, (x = st.lastEventPos ∨ x = t) ∧
             (sceneStep ev st t).sceneList = st.sceneList ++ [(x, t)]) :=
        processTimecode_cases st t ((eventsLookup t ev).getD [])
      have hA : ∀ t' ∈ ks, (sceneStep ev st t).lastEventPos ≤ t' := by
        intro t' ht'
        rcases hcases with ⟨_, hl | hl⟩ | ⟨hl, _⟩
        · rw [hl]; exact h2 t' (List.mem_cons_of_mem t ht')
        · rw [hl]; exact hts t' ht'
        · rw [hl]; exact hts t' ht'
      have hB : ∀ p ∈ (sceneStep ev st t).sceneList,
          p.1 ≤ p.2 ∧ p.2 ≤ (sceneStep ev st t).lastEventPos := by
        rcases hcases with ⟨hsc, hl | hl⟩ | ⟨hl, x, hx, hsc⟩
        · rw [hsc, hl]; exact h3
        · rw [hsc, hl]
          intro p hp
          exact ⟨(h3 p hp).1, (h3 p hp).2.trans htle⟩
        · rw [hsc, hl]
          intro p hp
          rcases List.mem_append.mp hp with hp' | hp'
          · exact ⟨(h3 p hp').1, (h3 p hp').2.trans htle⟩
          · have hpx : p = (x, t) := by simpa using hp'
            subst hpx
            rcases hx with rfl | rfl
            · exact ⟨htle, le_refl _⟩
            · exact ⟨le_refl _, le_refl _⟩
      have hC : List.Chain' (fun p q => p.2 ≤ q.1) (sceneStep ev st t).sceneList := by
        rcases hcases with ⟨hsc, _⟩ | ⟨hl, x, hx, hsc⟩
        · rw [hsc]; exact h4
        · rw [hsc]
          refine List.chain'_append.mpr ⟨h4, List.chain'_singleton _, ?_⟩
          intro a ha b hb
          have hb' : b = (x, t) := by
            have := hb
            simp only [List.head?] at this
            exact (Option.mem_some_iff.mp this).symm
          subst hb'
          have hax := (h3 a (mem_of_mem_getLast_opt ha)).2
          rcases hx with rfl | rfl
          · exact hax
          · exact hax.trans htle
      obtain ⟨r1, r2, r3⟩ := foldl_sceneStep_bounds ev ks (sceneStep ev st t) h1' hA hB hC
      refine ⟨r1, r2, ?_⟩
      rcases r3 with h | h
      · rcases hcases with ⟨_, hl | hl⟩ | ⟨hl, _⟩
        · exact Or.inl (h.trans hl)
        · exact Or.inr (by rw [h, hl]; exact List.mem_cons_self t ks)
        · exact Or.inr (by rw [h, hl]; exact List.mem_cons_self t ks)
      · exact Or.inr (List.mem_cons_of_mem t h)

/-- Claim C2, amended: for every ledger whose recorded start position is at
most its recorded last position and whose event timecodes all lie within
that span, every scene list returned by `get_scene_list` satisfies
`start ≤ end` for each pair (strict `start < end` can fail, e.g. when a CUT
coincides with the scene-opening position) and `end[i] ≤ start[i+1]` for
every pair of consecutive scenes. -/
theorem C2_scene_list_ordering :
    ∀ (m : SceneManager) (sp lp : Nat) (b : Bool) (L : List (Nat × Nat)),
      m.startPos = some sp → m.lastPos = some lp → sp ≤ lp →
      (∀ t ∈ m.events.map Prod.fst, sp ≤ t ∧ t ≤ lp) →
      get_scene_list m b = some L →
      (∀ p ∈ L, p.1 ≤ p.2) ∧ List.Chain' (fun p q => p.2 ≤ q.1) L := by
  intro m sp lp b L h1 h2 hsl hb hL
  by_cases hev : m.events = []
  · rw [get_scene_list, if_pos hev] at hL
    obtain rfl : L = [] := (Option.some_inj.mp hL).symm
    exact ⟨by simp, by simp⟩
  · have hL' :
        (if (sceneAssembly m sp).inScene && b then
          (match m.lastPos with
           | none => none
           | some lp =>
              some ((sceneAssembly m sp).sceneList ++
                [((sceneAssembly m sp).lastEventPos, lp + 1)]))
         else some (sceneAssembly m sp).sceneList) = some L := by
      rw [get_scene_list, if_neg hev, h1] at hL
      exact hL
    have hsorted : List.Sorted (· ≤ ·) (sortedKeys m.events) :=
      List.sorted_insertionSort _ _
    have hmem : ∀ t ∈ sortedKeys m.events, sp ≤ t ∧ t ≤ lp := by
      intro t ht
      exact hb t (by simpa [sortedKeys] using ht)
    have hfold := foldl_sceneStep_bounds m.events (sortedKeys m.events)
      ⟨sp, m.onlyCuts, []⟩ hsorted (fun t ht => (hmem t ht).1) (by simp) (by simp)
    have hsc : ∀ p ∈ (sceneAssembly m sp).sceneList,
        p.1 ≤ p.2 ∧ p.2 ≤ (sceneAssembly m sp).lastEventPos := hfold.1
    have hch : List.Chain' (fun p q => p.2 ≤ q.1) (sceneAssembly m sp).sceneList :=
      hfold.2.1
    have hlep : (sceneAssembly m sp).lastEventPos = sp ∨
        (sceneAssembly m sp).lastEventPos ∈ sortedKeys m.events := hfold.2.2
    have hlep_le : (sceneAssembly m sp).lastEventPos ≤ lp := by
      rcases hlep with h | h
      · rw [h]; exact hsl
      · exact (hmem _ h).2
    cases hscene : ((sceneAssembly m sp).inScene && b) with
    | false =>
        rw [hscene] at hL'
        simp only [Bool.false_eq_true, if_false] at hL'
        obtain rfl : L = (sceneAssembly m sp).sceneList := (Option.some_inj.mp hL').symm
        exact ⟨fun p hp => (hsc p hp).1, hch⟩
    | true =>
        rw [hscene, h2] at hL'
        simp only [if_true] at hL'
        obtain rfl :
            L = (sceneAssembly m sp).sceneList ++
              [((sceneAssembly m sp).lastEventPos, lp + 1)] :=
          (Option.some_inj.mp hL').symm
        constructor
        · intro p hp
          rcases List.mem_append.mp hp with hp' | hp'
          · exact (hsc p hp').1
          · have hpx : p = ((sceneAssembly m sp).lastEventPos, lp + 1) := by simpa using hp'
            subst hpx
            exact Nat.le_succ_of_le hlep_le
        · refine List.chain'_append.mpr ⟨hch, List.chain'_singleton _, ?_⟩
          intro a ha q hq
          have hq' : q = ((sceneAssembly m sp).lastEventPos, lp + 1) := by
            have := hq
            simp only [List.head?] at this
            exact (Option.mem_some_iff.mp this).symm
          subst hq'
          exact (hsc a (mem_of_mem_getLast_opt ha)).2

/-- Claim C2, witness: the amended theorem applied to a ledger with an IN at
frame 5 and an OUT at frame 20 over a run from 0 to 25, whose scene list is
`[(5, 20)]`. -/
theorem C2_scene_list_ordering_witness :
    get_scene_list managerC2w true = some [(5, 20)] ∧
    List.Chain' (fun p q : Nat × Nat => p.2 ≤ q.1) [(5, 20)] :=
  ⟨by decide,
   (C2_scene_list_ordering managerC2w 0 25 true [(5, 20)] rfl rfl (by decide) (by decide)
      (by decide)).2⟩

/-- Helper: invariant of the outer loop over strictly ascending keys: the
closing timecodes of the accumulated scenes stay pairwise distinct, and any
new closing timecode comes from the processed keys. -/
theorem foldl_sceneStep_nodup (ev : List (Nat × List DetectionEvent)) :
    ∀ (ks : List Nat) (st : AssemblyState),
      List.Sorted (· < ·) ks →
      (∀ e ∈ st.sceneList.map Prod.snd, ∀ t ∈ ks, e < t) →
      (st.sceneList.map Prod.snd).Nodup →
      (((ks.foldl (sceneStep ev) st).sceneList.map Prod.snd).Nodup ∧
       ∀ e ∈ (ks.foldl (sceneStep ev) st).sceneList.map Prod.snd,
         e ∈ st.sceneList.map Prod.snd ∨ e ∈ ks)
  | [], st, _, _, h3 => ⟨h3, fun e he => Or.inl he⟩
  | t :: ks, st, h1, h2, h3 => by
      rw [List.foldl_cons]
      obtain ⟨hts, h1'⟩ := List.sorted_cons.mp h1
      have hcases :
          ((sceneStep ev st t).sceneList = st.sceneList ∧
           ((sceneStep ev st t).lastEventPos = st.lastEventPos ∨
            (sceneStep ev st t).lastEventPos = t)) ∨
          ((sceneStep ev st t).lastEventPos = t ∧
           ∃ x, (x = st.lastEventPos ∨ x = t) ∧
             (sceneStep ev st t).sceneList = st.sceneList ++ [(x, t)]) :=
        processTimecode_cases st t ((eventsLookup t ev).getD [])
      have hA : ∀ e ∈ (sceneStep ev st t).sceneList.map Prod.snd, ∀ t' ∈ ks, e < t' := by
        rcases hcases with ⟨hsc, _⟩ | ⟨hl, x, hx, hsc⟩
        · rw [hsc]
          intro e he t' ht'
          exact h2 e he t' (List.mem_cons_of_mem _ ht')
        · rw [hsc]
          intro e he t' ht'
          rw [List.map_append] at he
          rcases List.mem_append.mp he with he' | he'
          · exact h2 e he' t' (List.mem_cons_of_mem _ ht')
          · have het : e = t := by simpa using he'
            rw [het]
            exact hts t' ht'
      have hB : ((sceneStep ev st t).sceneList.map Prod.snd).Nodup := by
        rcases hcases with ⟨hsc, _⟩ | ⟨hl, x, hx, hsc⟩
        · rw [hsc]; exact h3
        · rw [hsc, List.map_append]
          have hnott : t ∉ st.sceneList.map Prod.snd := fun hmem =>
            lt_irrefl t (h2 t hmem t (List.mem_cons_self t ks))
          have hperm := List.perm_append_singleton t (st.sceneList.map Prod.snd)
          have : (st.sceneList.map Prod.snd ++ [t]).Nodup :=
            hperm.nodup_iff.mpr (List.nodup_cons.mpr ⟨hnott, h3⟩)
          simpa using this
      obtain ⟨r1, r2⟩ := foldl_sceneStep_nodup ev ks (sceneStep ev st t) h1' hA hB
      refine ⟨r1, ?_⟩
      intro e he
      rcases r2 e he with h | h
      · rcases hcases with ⟨hsc, _⟩ | ⟨hl, x, hx, hsc⟩
        · rw [hsc] at h
          exact Or.inl h
        · rw [hsc, List.map_append] at h
          rcases List.mem_append.mp h with h' | h'
          · exact Or.inl h'
          · have het : e = t := by simpa using h'
            exact Or.inr (het ▸ List.mem_cons_self t ks)
      · exact Or.inr (List.mem_cons_of_mem _ h)

/-- Claim C8, amended: for every ledger with distinct keys whose event
timecodes are all at most the recorded last processed position, the closing
timecodes of the scenes returned by `get_scene_list` are pairwise distinct —
at most one scene closes at any distinct timecode, however many events (of
any kinds) collide there, same-timecode events being processed in arrival
order — and in particular two CUT events at the identical frame 40 produce
exactly one scene boundary at 40.  (Without the span bound, an event past
the last processed position can collide with the final always-include-end
boundary, as the counterexample shows.) -/
theorem C8_one_boundary_per_timecode :
    (∀ (m : SceneManager) (lp : Nat) (b : Bool) (L : List (Nat × Nat)),
      (m.events.map Prod.fst).Nodup → m.lastPos = some lp →
      (∀ t ∈ m.events.map Prod.fst, t ≤ lp) →
      get_scene_list m b = some L → (L.map Prod.snd).Nodup) ∧
    get_scene_list managerC8 true = some [(0, 40), (40, 61)] := by
  constructor
  · intro m lp b L hnd hlp hb hL
    by_cases hev : m.events = []
    · rw [get_scene_list, if_pos hev] at hL
      obtain rfl : L = [] := (Option.some_inj.mp hL).symm
      simp
    · cases h1 : m.startPos with
      | none =>
          rw [get_scene_list, if_neg hev, h1] at hL
          exact absurd hL (by simp)
      | some sp =>
          have hL' :
              (if (sceneAssembly m sp).inScene && b then
                (match m.lastPos with
                 | none => none
                 | some lp =>
                    some ((sceneAssembly m sp).sceneList ++
                      [((sceneAssembly m sp).lastEventPos, lp + 1)]))
               else some (sceneAssembly m sp).sceneList) = some L := by
            rw [get_scene_list, if_neg hev, h1] at hL
            exact hL
          have hndk : (sortedKeys m.events).Nodup :=
            (List.perm_insertionSort _ _).nodup_iff.mpr hnd
          have hsorted : List.Sorted (· < ·) (sortedKeys m.events) :=
            (List.sorted_insertionSort _ _).lt_of_le hndk
          have hfold := foldl_sceneStep_nodup m.events (sortedKeys m.events)
            ⟨sp, m.onlyCuts, []⟩ hsorted (by simp) (by simp)
          have hnodup : ((sceneAssembly m sp).sceneList.map Prod.snd).Nodup := hfold.1
          have hsub : ∀ e ∈ (sceneAssembly m sp).sceneList.map Prod.snd, e ≤ lp := by
            intro e he
            rcases hfold.2 e he with h | h
            · simp at h
            · exact hb e (by simpa [sortedKeys] using h)
          cases hscene : ((sceneAssembly m sp).inScene && b) with
          | false =>
              rw [hscene] at hL'
              simp only [Bool.false_eq_true, if_false] at hL'
              obtain rfl : L = (sceneAssembly m sp).sceneList :=
                (Option.some_inj.mp hL').symm
              exact hnodup
          | true =>
              rw [hscene, hlp] at hL'
              simp only [if_true] at hL'
              obtain rfl :
                  L = (sceneAssembly m sp).sceneList ++
                    [((sceneAssembly m sp).lastEventPos, lp + 1)] :=
                (Option.some_inj.mp hL').symm
              rw [List.map_append]
              have hnotin : (lp + 1) ∉ (sceneAssembly m sp).sceneList.map Prod.snd :=
                fun hmem => absurd (hsub _ hmem) (by omega)
              have hperm := List.perm_append_singleton (lp + 1)
                ((sceneAssembly m sp).sceneList.map Prod.snd)
              have hall : ((sceneAssembly m sp).sceneList.map Prod.snd ++ [lp + 1]).Nodup :=
                hperm.nodup_iff.mpr (List.nodup_cons.mpr ⟨hnotin, hnodup⟩)
              simpa using hall
  · decide

/-- Claim C8, witness: the amended theorem applied to the two-CUTs-at-40
ledger, whose scene list `[(0,40), (40,61)]` has pairwise distinct closing
timecodes. -/
theorem C8_one_boundary_per_timecode_witness :
    (([(0, 40), (40, 61)] : List (Nat × Nat)).map Prod.snd).Nodup :=
  C8_one_boundary_per_timecode.1 managerC8 60 true [(0, 40), (40, 61)]
    (by decide) rfl (by decide) (by decide)

/-- Helper: a key is absent from the lookup exactly when it is not among the
keys. -/
theorem eventsLookup_eq_none_iff (t : Nat) :
    ∀ l : List (Nat × List DetectionEvent),
      eventsLookup t l = none ↔ t ∉ l.map Prod.fst
  | [] => by simp [eventsLookup]
  | p :: rest => by
      by_cases h : p.1 = t
      · simp [eventsLookup, h]
      · rw [List.map_cons]
        simp only [eventsLookup, if_neg h, List.mem_cons]
        rw [eventsLookup_eq_none_iff t rest]
        constructor
        · intro hnot hc
          rcases hc with hc | hc
          · exact h hc.symm
          · exact hnot hc
        · exact fun hnot hc => hnot (Or.inr hc)

/-- Helper: lookup after appending a single new entry at the end. -/
theorem eventsLookup_append_single (t k : Nat) (v : List DetectionEvent) :
    ∀ l : List (Nat × List DetectionEvent),
      eventsLookup t (l ++ [(k, v)]) =
        match eventsLookup t l with
        | some w => some w
        | none => if k = t then some v else none
  | [] => by simp [eventsLookup]
  | p :: rest => by
      by_cases h : p.1 = t <;>
        simp [eventsLookup, h, eventsLookup_append_single t k v rest]

/-- Helper: lookup after appending one event to the entry at key `k`. -/
theorem eventsLookup_map_update (t k : Nat) (e : DetectionEvent) :
    ∀ l : List (Nat × List DetectionEvent),
      eventsLookup t (l.map (fun p => if p.1 = k then (p.1, p.2 ++ [e]) else p)) =
        if k = t then (eventsLookup t l).map (fun v => v ++ [e])
        else eventsLookup t l
  | [] => by by_cases h : k = t <;> simp [eventsLookup, h]
  | p :: rest => by
      by_cases hpk : p.1 = k <;> by_cases hpt : p.1 = t
      · have hkt : k = t := hpk ▸ hpt
        simp [eventsLookup, hpk, hpt, hkt]
      · have hkt : ¬ k = t := fun h => hpt (h ▸ hpk)
        simp [eventsLookup, hpk, hpt, hkt, eventsLookup_map_update t k e rest]
      · have hkt : ¬ k = t := fun hh => hpk (hpt.trans hh.symm)
        have htk : ¬ t = k := fun hh => hkt hh.symm
        simp [eventsLookup, hpk, hpt, hkt, htk]
      · simp [eventsLookup, hpk, hpt, eventsLookup_map_update t k e rest]

/-- Helper: effect of `addEvent` on a lookup: the event is appended at its
own timecode's entry (created if needed) and every other entry is
untouched. -/
theorem eventsLookup_addEvent (m : SceneManager) (e : DetectionEvent) (t : Nat) :
    eventsLookup t (addEvent m e).events =
      if e.time = t then some (((eventsLookup t m.events).getD []) ++ [e])
      else eventsLookup t m.events := by
  show eventsLookup t
      (if e.time ∈ m.events.map Prod.fst then
        m.events.map (fun p => if p.1 = e.time then (p.1, p.2 ++ [e]) else p)
      else m.events ++ [(e.time, [e])]) = _
  by_cases hmem : e.time ∈ m.events.map Prod.fst
  · rw [if_pos hmem, eventsLookup_map_update]
    by_cases het : e.time = t
    · rw [if_pos het, if_pos het]
      have hsome : eventsLookup t m.events ≠ none := by
        intro h
        exact ((eventsLookup_eq_none_iff t m.events).mp h) (het ▸ hmem)
      cases h : eventsLookup t m.events with
      | none => exact absurd h hsome
      | some v => simp
    · rw [if_neg het, if_neg het]
  · rw [if_neg hmem, eventsLookup_append_single]
    have hnone : eventsLookup e.time m.events = none :=
      (eventsLookup_eq_none_iff _ _).mpr hmem
    by_cases het : e.time = t
    · rw [if_pos het]
      rw [het] at hnone
      rw [hnone]
      simp [het]
    · rw [if_neg het]
      cases h : eventsLookup t m.events with
      | none => simp [het]
      | some v => simp [het]

/-- Helper: a lookup into the ledger built by `addEvents` returns the events
already present at the key followed by the added events with that timecode,
in arrival order. -/
theorem eventsLookup_addEvents (t : Nat) :
    ∀ (l : List DetectionEvent) (m : SceneManager),
      eventsLookup t (addEvents m l).events =
        match eventsLookup t m.events, l.filter (fun e => e.time == t) with
        | some v, fs => some (v ++ fs)
        | none, [] => none
        | none, fs => some fs
  | [], m => by
      cases h : eventsLookup t m.events <;> simp [addEvents, h]
  | e :: l, m => by
      show eventsLookup t (addEvents (addEvent m e) l).events = _
      rw [eventsLookup_addEvents t l (addEvent m e), eventsLookup_addEvent]
      by_cases het : e.time = t
      · have hbeq : (e.time == t) = true := by simp [het]
        rw [if_pos het]
        simp only [List.filter_cons, hbeq, if_true]
        cases h : eventsLookup t m.events with
        | some v => simp [h]
        | none => simp [h]
      · have hbeq : (e.time == t) = false := by simp [het]
        rw [if_neg het]
        simp only [List.filter_cons, hbeq]
        rfl

/-- Helper: effect of `addEvent` on the key sequence: unchanged when the
timecode is already a key, extended at the end otherwise. -/
theorem keys_addEvent (m : SceneManager) (e : DetectionEvent) :
    (addEvent m e).events.map Prod.fst =
      if e.time ∈ m.events.map Prod.fst then m.events.map Prod.fst
      else m.events.map Prod.fst ++ [e.time] := by
  show (if e.time ∈ m.events.map Prod.fst then
          m.events.map (fun p => if p.1 = e.time then (p.1, p.2 ++ [e]) else p)
        else m.events ++ [(e.time, [e])]).map Prod.fst = _
  by_cases h : e.time ∈ m.events.map Prod.fst
  · rw [if_pos h, if_pos h, List.map_map]
    have hfun : ∀ p : Nat × List DetectionEvent,
        (Prod.fst ∘ fun p => if p.1 = e.time then (p.1, p.2 ++ [e]) else p) p = p.1 := by
      intro p
      by_cases hp : p.1 = e.time <;> simp [Function.comp, hp]
    exact List.map_congr_left fun p _ => hfun p
  · rw [if_neg h, if_neg h]
    simp

/-- Helper: `addEvents` keeps the key sequence free of duplicates. -/
theorem keys_addEvents_nodup :
    ∀ (l : List DetectionEvent) (m : SceneManager),
      (m.events.map Prod.fst).Nodup → ((addEvents m l).events.map Prod.fst).Nodup
  | [], _, h => h
  | e :: l, m, h => by
      show ((addEvents (addEvent m e) l).events.map Prod.fst).Nodup
      apply keys_addEvents_nodup l
      rw [keys_addEvent]
      by_cases hmem : e.time ∈ m.events.map Prod.fst
      · rw [if_pos hmem]; exact h
      · rw [if_neg hmem]
        exact (List.perm_append_singleton _ _).nodup_iff.mpr
          (List.nodup_cons.mpr ⟨hmem, h⟩)

/-- Helper: a timecode is a key of the ledger built by `addEvents` iff it was
a key before or some added event carries it. -/
theorem mem_keys_addEvents (t : Nat) :
    ∀ (l : List DetectionEvent) (m : SceneManager),
      t ∈ (addEvents m l).events.map Prod.fst ↔
        t ∈ m.events.map Prod.fst ∨ ∃ e ∈ l, e.time = t
  | [], m => by simp [addEvents]
  | e :: l, m => by
      show t ∈ (addEvents (addEvent m e) l).events.map Prod.fst ↔ _
      rw [mem_keys_addEvents t l (addEvent m e), keys_addEvent]
      by_cases hmem : e.time ∈ m.events.map Prod.fst
      · rw [if_pos hmem]
        have himp : e.time = t → t ∈ m.events.map Prod.fst := fun hh => hh ▸ hmem
        constructor
        · rintro (h | h)
          · exact Or.inl h
          · exact Or.inr ⟨_, List.mem_cons_of_mem e h.choose_spec.1, h.choose_spec.2⟩
        · rintro (h | ⟨x, hx, hxt⟩)
          · exact Or.inl h
          · rcases List.mem_cons.mp hx with rfl | hx'
            · exact Or.inl (himp hxt)
            · exact Or.inr ⟨x, hx', hxt⟩
      · rw [if_neg hmem]
        constructor
        · rintro (h | h)
          · rcases List.mem_append.mp h with h' | h'
            · exact Or.inl h'
            · have : t = e.time := by simpa using h'
              exact Or.inr ⟨e, List.mem_cons_self e l, this.symm⟩
          · exact Or.inr ⟨_, List.mem_cons_of_mem e h.choose_spec.1, h.choose_spec.2⟩
        · rintro (h | ⟨x, hx, hxt⟩)
          · exact Or.inl (List.mem_append.mpr (Or.inl h))
          · rcases List.mem_cons.mp hx with rfl | hx'
            · exact Or.inl (List.mem_append.mpr (Or.inr (by simp [hxt])))
            · exact Or.inr ⟨x, hx', hxt⟩

/-- Helper: the only-cuts flag after `addEvents` is the entry flag conjoined
with every added event being a CUT. -/
theorem onlyCuts_addEvents :
    ∀ (l : List DetectionEvent) (m : SceneManager),
      (addEvents m l).onlyCuts =
        (m.onlyCuts && l.all (fun e => e.kind == EventType.CUT))
  | [], m => by simp [addEvents]
  | e :: l, m => by
      show (addEvents (addEvent m e) l).onlyCuts = _
      rw [onlyCuts_addEvents l (addEvent m e)]
      have hoc : (addEvent m e).onlyCuts = (m.onlyCuts && (e.kind == EventType.CUT)) := by
        show (if e.kind = EventType.CUT then m.onlyCuts else false) = _
        by_cases h : e.kind = EventType.CUT <;> simp [h]
      rw [hoc]
      simp [List.all_cons, Bool.and_assoc]

/-- Helper: `addEvents` never touches the recorded start position. -/
theorem startPos_addEvents :
    ∀ (l : List DetectionEvent) (m : SceneManager),
      (addEvents m l).startPos = m.startPos
  | [], _ => rfl
  | e :: l, m => by
      show (addEvents (addEvent m e) l).startPos = _
      rw [startPos_addEvents l (addEvent m e)]
      rfl

/-- Helper: `addEvents` never touches the recorded last position. -/
theorem lastPos_addEvents :
    ∀ (l : List DetectionEvent) (m : SceneManager),
      (addEvents m l).lastPos = m.lastPos
  | [], _ => rfl
  | e :: l, m => by
      show (addEvents (addEvent m e) l).lastPos = _
      rw [lastPos_addEvents l (addEvent m e)]
      rfl

/-- Claim C9: feeding a finite set of detection events through `add_events`
in two arrival orders that agree on the relative order of events sharing a
timecode (but may arbitrarily reorder events at distinct timecodes) produces
ledgers on which `get_scene_list` returns identical scene lists, starting
from any manager with an empty ledger. -/
theorem C9_scene_list_order_insensitive :
    ∀ (m0 : SceneManager) (l1 l2 : List DetectionEvent) (b : Bool),
      m0.events = [] →
      (∀ t : Nat, l1.filter (fun e => e.time == t) = l2.filter (fun e => e.time == t)) →
      get_scene_list (addEvents m0 l1) b = get_scene_list (addEvents m0 l2) b := by
  intro m0 l1 l2 b h0 hf
  have hlookup : ∀ t, eventsLookup t (addEvents m0 l1).events =
      eventsLookup t (addEvents m0 l2).events := by
    intro t
    rw [eventsLookup_addEvents t l1 m0, eventsLookup_addEvents t l2 m0, h0]
    simp only [eventsLookup]
    rw [hf t]
  have hmem12 : ∀ e : DetectionEvent, e ∈ l1 ↔ e ∈ l2 := by
    intro e
    constructor <;> intro he
    · have h1 : e ∈ l1.filter (fun x => x.time == e.time) :=
        List.mem_filter.mpr ⟨he, by simp⟩
      rw [hf e.time] at h1
      exact (List.mem_filter.mp h1).1
    · have h1 : e ∈ l2.filter (fun x => x.time == e.time) :=
        List.mem_filter.mpr ⟨he, by simp⟩
      rw [← hf e.time] at h1
      exact (List.mem_filter.mp h1).1
  have hmemkeys : ∀ t, t ∈ (addEvents m0 l1).events.map Prod.fst ↔
      t ∈ (addEvents m0 l2).events.map Prod.fst := by
    intro t
    rw [mem_keys_addEvents t l1 m0, mem_keys_addEvents t l2 m0]
    have h1 : (∃ e ∈ l1, e.time = t) ↔ (∃ e ∈ l2, e.time = t) := by
      constructor
      · rintro ⟨e, he, rfl⟩
        exact ⟨e, (hmem12 e).mp he, rfl⟩
      · rintro ⟨e, he, rfl⟩
        exact ⟨e, (hmem12 e).mpr he, rfl⟩
    rw [h1]
  have hnd1 : ((addEvents m0 l1).events.map Prod.fst).Nodup :=
    keys_addEvents_nodup l1 m0 (by simp [h0])
  have hnd2 : ((addEvents m0 l2).events.map Prod.fst).Nodup :=
    keys_addEvents_nodup l2 m0 (by simp [h0])
  have hperm : List.Perm ((addEvents m0 l1).events.map Prod.fst)
      ((addEvents m0 l2).events.map Prod.fst) :=
    (List.perm_ext_iff_of_nodup hnd1 hnd2).mpr hmemkeys
  have hsk : sortedKeys (addEvents m0 l1).events = sortedKeys (addEvents m0 l2).events := by
    exact List.eq_of_perm_of_sorted
      ((List.perm_insertionSort _ _).trans (hperm.trans (List.perm_insertionSort _ _).symm))
      (List.sorted_insertionSort _ _) (List.sorted_insertionSort _ _)
  have hev : ((addEvents m0 l1).events = []) ↔ ((addEvents m0 l2).events = []) := by
    constructor <;> intro h
    · have hkeys : (addEvents m0 l2).events.map Prod.fst = [] := by
        apply List.eq_nil_iff_forall_not_mem.mpr
        intro t ht
        have := (hmemkeys t).mpr ht
        rw [h] at this
        simp at this
      exact List.map_eq_nil_iff.mp hkeys
    · have hkeys : (addEvents m0 l1).events.map Prod.fst = [] := by
        apply List.eq_nil_iff_forall_not_mem.mpr
        intro t ht
        have := (hmemkeys t).mp ht
        rw [h] at this
        simp at this
      exact List.map_eq_nil_iff.mp hkeys
  have hall : l1.all (fun e => e.kind == EventType.CUT) =
      l2.all (fun e => e.kind == EventType.CUT) := by
    cases hall1 : l1.all (fun e => e.kind == EventType.CUT) with
    | true =>
        have h1 := List.all_eq_true.mp hall1
        exact (List.all_eq_true.mpr fun e he => h1 e ((hmem12 e).mpr he)).symm
    | false =>
        cases hall2 : l2.all (fun e => e.kind == EventType.CUT) with
        | false => rfl
        | true =>
            have h2 := List.all_eq_true.mp hall2
            have h1 : l1.all (fun e => e.kind == EventType.CUT) = true :=
              List.all_eq_true.mpr fun e he => h2 e ((hmem12 e).mp he)
            rw [hall1] at h1
            exact absurd h1 (by simp)
  have hoc : (addEvents m0 l1).onlyCuts = (addEvents m0 l2).onlyCuts := by
    rw [onlyCuts_addEvents l1 m0, onlyCuts_addEvents l2 m0, hall]
  have hsp : (addEvents m0 l1).startPos = (addEvents m0 l2).startPos := by
    rw [startPos_addEvents l1 m0, startPos_addEvents l2 m0]
  have hlp : (addEvents m0 l1).lastPos = (addEvents m0 l2).lastPos := by
    rw [lastPos_addEvents l1 m0, lastPos_addEvents l2 m0]
  have hstep : sceneStep (addEvents m0 l1).events = sceneStep (addEvents m0 l2).events := by
    funext st t
    show processTimecode st t ((eventsLookup t (addEvents m0 l1).events).getD []) = _
    rw [hlookup t]
    rfl
  have hassem : ∀ sp, sceneAssembly (addEvents m0 l1) sp = sceneAssembly (addEvents m0 l2) sp := by
    intro sp
    show (sortedKeys (addEvents m0 l1).events).foldl (sceneStep (addEvents m0 l1).events)
        { lastEventPos := sp, inScene := (addEvents m0 l1).onlyCuts, sceneList := [] } = _
    rw [hsk, hstep, hoc]
    rfl
  simp only [get_scene_list, hsp, hlp, hassem, hev]

/-- Claim C9, witness: swapping the arrival order of an IN at frame 5 and a
CUT at frame 3 (distinct timecodes) leaves the scene list unchanged. -/
theorem C9_scene_list_order_insensitive_witness :
    get_scene_list (addEvents initSceneManager [eventC9a, eventC9b]) true =
      get_scene_list (addEvents initSceneManager [eventC9b, eventC9a]) true :=
  C9_scene_list_order_insensitive initSceneManager [eventC9a, eventC9b]
    [eventC9b, eventC9a] true rfl
    (by
      intro t
      by_cases h5 : (5 : Nat) = t <;> by_cases h3 : (3 : Nat) = t <;>
        simp [eventC9a, eventC9b, List.filter_cons, h5, h3] <;> omega)
